import Mathlib

/-!
# Uniswap client (`uniswap/client.go`): shallow embedding and verified properties

The embedding has two parts.

* **Swap math.** `CalculateAmountOutMin` is a pure function of a `*big.Int` and a
  `float64`.  Finite binary floating-point values are rationals, so the model works in `ℚ`:
  every `float64` operation and every `big.Float` operation is the exact rational result
  followed by the rounding (to nearest, ties to even) that the operation performs.
* **Node operations.** `MintWETH`, `ApproveERC20Token`, `SwapTokens`, `GetTokenBalance`,
  `GetExpectedAmountOut` and `sendTransaction` talk to an Ethereum node and to library code
  (ABI packing, signing).  The node and the libraries are explicit oracles (`Node`, `Env`);
  an operation returns its Go result together with the trace of the effects it performed,
  in program order.
-/

namespace Uniswap

/-! ## Binary floating point -/

/-- Nearest integer to `y`, a tie going to the even neighbour. -/
def roundHalfEven (y : ℚ) : ℤ :=
  let f := ⌊y⌋
  let r := y - f
  if r < 1 / 2 then f
  else if 1 / 2 < r then f + 1
  else if f % 2 = 0 then f else f + 1

/-- Nearest multiple of `2 ^ k` to `q`, a tie going to the even multiple. -/
def roundAt (k : ℤ) (q : ℚ) : ℚ :=
  (roundHalfEven (q / (2 : ℚ) ^ k) : ℚ) * (2 : ℚ) ^ k

/-- Exponent of the unit in the last place of a `float64` holding `q`: a 53-bit significand
above the binade of `q`, and never below `2 ^ (-1074)` (gradual underflow). -/
def float64Ulp (q : ℚ) : ℤ :=
  max (Int.log 2 |q| - 52) (-1074)

/-- Rounding of an exact result to `float64` (IEEE 754 binary64, round to nearest even).
Zero rounds to zero at every quantum.  Overflow to an infinity is outside the model: the two
operations of `CalculateAmountOutMin` cannot overflow on a finite operand. -/
def float64Round (q : ℚ) : ℚ :=
  roundAt (float64Ulp q) q

/-- Go `a / b` on `float64`, for finite operands and `b` nonzero. -/
def float64Div (a b : ℚ) : ℚ :=
  float64Round (a / b)

/-- Go `a - b` on `float64`, for finite operands. -/
def float64Sub (a b : ℚ) : ℚ :=
  float64Round (a - b)

/-- Rounding of an exact result to a `big.Float` of precision `prec` in mode `ToNearestEven`
(the mode of a zero-value `big.Float`).  The exponent of a `big.Float` is an `int32`, which
no operand of this program approaches, so it is unbounded here. -/
def bigFloatRound (prec : ℕ) (q : ℚ) : ℚ :=
  roundAt (Int.log 2 |q| - ((prec : ℤ) - 1)) q

/-- Go `x.BitLen()` of a `*big.Int`: the length of the absolute value in bits. -/
def bitLen (x : ℤ) : ℕ :=
  Nat.size x.natAbs

/-- A finite `big.Float`: its precision in bits and its value. -/
structure BigFloat where
  prec : ℕ
  val : ℚ
deriving DecidableEq

/-- Go `big.NewFloat(x)`: precision 53, the value of the `float64` exactly. -/
def BigFloat.NewFloat (x : ℚ) : BigFloat :=
  ⟨53, x⟩

/-- Go `new(big.Float).SetInt(x)`: the receiver has precision 0, so the precision becomes the
larger of `x.BitLen()` and 64 and the value is exact. -/
def BigFloat.SetInt (x : ℤ) : BigFloat :=
  ⟨max (bitLen x) 64, (x : ℚ)⟩

/-- Go `new(big.Float).Mul(x, y)`: the receiver has precision 0, so the precision becomes the
larger of the operands' precisions and the product is rounded to it. -/
def BigFloat.Mul (x y : BigFloat) : BigFloat :=
  ⟨max x.prec y.prec, bigFloatRound (max x.prec y.prec) (x.val * y.val)⟩

/-- Go `x.Int(nil)`: truncation towards zero. -/
def BigFloat.Int (x : BigFloat) : ℤ :=
  if 0 ≤ x.val then ⌊x.val⌋ else ⌈x.val⌉

/-! ## Swap math -/

/-- Go `Client.CalculateAmountOutMin` (`client.go` 312-318).  `slippagePercentage` is a finite
`float64`; the receiver is not used by the body. -/
def CalculateAmountOutMin (expectedAmountOut : ℤ) (slippagePercentage : ℚ) : ℤ :=
  let slippageFactor := BigFloat.NewFloat (float64Sub 1 (float64Div slippagePercentage 100))
  let expectedAmountOutFloat := BigFloat.SetInt expectedAmountOut
  let amountOutMinFloat := BigFloat.Mul expectedAmountOutFloat slippageFactor
  amountOutMinFloat.Int

/-- Result of the `minOutput` contract of the specification: an amount or the
`InvalidSlippage` failure. -/
inductive MinOutputResult where
  | amount (v : ℤ)
  | invalidSlippage
deriving DecidableEq

/-- The `minOutput` contract in the words of the specification: slippage outside `[0, 100]` is
`InvalidSlippage`, otherwise the exact `floor(expectedOutput * (100 - slippagePercent) / 100)`. -/
def minOutputSpec (expectedOutput : ℤ) (slippagePercent : ℚ) : MinOutputResult :=
  if slippagePercent < 0 ∨ 100 < slippagePercent then MinOutputResult.invalidSlippage
  else MinOutputResult.amount ⌊(expectedOutput : ℚ) * (100 - slippagePercent) / 100⌋

/-! ## Data of the node operations -/

/-- Go `common.Address`: a 20-byte account or contract identifier. -/
abbrev Address := Fin (2 ^ 160)

/-- A byte string, as `[]byte`. -/
abbrev Bytes := List (Fin 256)

/-- A Go `error` value. -/
structure GoError where
  msg : String
deriving DecidableEq

/-- Go `uniswap.Config`.  The gas fields are `uint64`; `DeadlineDuration` is a
`time.Duration`, a count of nanoseconds. -/
structure Config where
  GasLimitBuffer : ℕ
  SwapGasLimit : ℕ
  DeadlineDuration : ℤ
deriving DecidableEq

/-- Go `ethereum.CallMsg` with the two fields the client sets. -/
structure CallMsg where
  To : Address
  Data : Bytes
deriving DecidableEq

/-- The unsigned transaction built by `types.NewTransaction(nonce, to, amount, gasLimit,
gasPrice, data)`. -/
structure Transaction where
  nonce : ℕ
  To : Address
  value : ℤ
  gas : ℕ
  gasPrice : ℤ
  data : Bytes
deriving DecidableEq

/-- The signature values a signer attaches to a transaction. -/
structure Signature where
  r : ℕ
  s : ℕ
  v : ℕ
deriving DecidableEq

/-- A transaction together with its signature, as returned by `types.SignTx`. -/
structure SignedTransaction where
  tx : Transaction
  sig : Signature
deriving DecidableEq

/-- Go `types.Receipt`, reduced to the execution status (`1` success, `0` failure). -/
structure Receipt where
  Status : ℕ
deriving DecidableEq

/-- An argument handed to `abi.ABI.Pack`. -/
inductive AbiValue where
  | address (a : Address)
  | uint256 (n : ℤ)
  | addressSlice (path : List Address)
deriving DecidableEq

/-- The Ethereum node behind `ethclient.Client`: one response per request.  Every operation
of the client issues each request at most once, so a response table describes a node fully.
`WaitMined` is the outcome of `bind.WaitMined`, which polls the node until the receipt of the
transaction is available or the polling fails. -/
structure Node where
  SuggestGasPrice : Except GoError ℤ
  PendingNonceAt : Address → Except GoError ℕ
  EstimateGas : CallMsg → Except GoError ℕ
  CallContract : CallMsg → Except GoError Bytes
  NetworkID : Except GoError ℤ
  SendTransaction : SignedTransaction → Except GoError Unit
  WaitMined : SignedTransaction → Except GoError Receipt

/-- Library code and ambient state the client calls besides the node.  `Pack` is `abi.JSON` on
the constant description of the method named followed by `Pack` on the arguments;
`UnpackUint256Slice` is `UnpackIntoInterface` into a `[]*big.Int`; `SignTx` is `types.SignTx`
with the EIP-155 signer of the chain id and the client key; `nowUnixNano` is `time.Now()` in
nanoseconds since the epoch. -/
structure Env where
  Pack : String → List AbiValue → Except GoError Bytes
  UnpackUint256Slice : String → Bytes → Except GoError (List ℤ)
  SignTx : Transaction → ℤ → ℕ → Except GoError Signature
  nowUnixNano : ℤ

/-- Go `uniswap.Client`. -/
structure Client where
  cfg : Config
  ethClient : Node
  routerAddress : Address
  signerAddress : Address
  signerPrivateKey : ℕ

/-- A line written with `log.Println` or `log.Printf`. -/
inductive LogLine where
  | swappingTokens
  | transactionSent (tx : SignedTransaction)
  | receiptStatus (status : ℕ)
deriving DecidableEq

/-- An effect performed by an operation: a request to the node, a signing, or a log line. -/
inductive Event where
  | suggestGasPrice
  | pendingNonceAt (account : Address)
  | estimateGas (msg : CallMsg)
  | callContract (msg : CallMsg)
  | networkID
  | signTx (tx : Transaction) (chainID : ℤ)
  | sendTransaction (tx : SignedTransaction)
  | waitMined (tx : SignedTransaction)
  | log (line : LogLine)
deriving DecidableEq

/-- Whether the event is an estimate-gas request. -/
def Event.isEstimateGas : Event → Bool
  | Event.estimateGas _ => true
  | _ => false

/-- Whether the event belongs to signing and submission: the chain-id query, the signing, the
send-raw-transaction request or the wait for the receipt. -/
def Event.isSubmission : Event → Bool
  | Event.networkID => true
  | Event.signTx _ _ => true
  | Event.sendTransaction _ => true
  | Event.waitMined _ => true
  | _ => false

/-- The run of an operation: the effects performed, in order, and the Go result (`Except.ok`
for a `nil` error). -/
structure Run (α : Type) where
  trace : List Event
  result : Except GoError α

/-- A run that performs no effect and returns `a`. -/
def Run.pure {α : Type} (a : α) : Run α :=
  ⟨[], Except.ok a⟩

/-- Sequencing with Go's `if err != nil { return err }`: the second part runs only when the
first returned no error. -/
def Run.bind {α β : Type} (r : Run α) (f : α → Run β) : Run β :=
  match r.result with
  | Except.error e => ⟨r.trace, Except.error e⟩
  | Except.ok a => ⟨r.trace ++ (f a).trace, (f a).result⟩

instance : Monad Run where
  pure := Run.pure
  bind := Run.bind

/-- A request `ev` whose response is `response`. -/
def Run.call {α : Type} (ev : Event) (response : Except GoError α) : Run α :=
  ⟨[ev], response⟩

/-- A library call that leaves no effect in the trace. -/
def Run.lift {α : Type} (response : Except GoError α) : Run α :=
  ⟨[], response⟩

/-- An effect that cannot fail. -/
def Run.emit (ev : Event) : Run Unit :=
  ⟨[ev], Except.ok ()⟩

/-- Go `big.Int.SetBytes`: the bytes read as a big-endian unsigned integer. -/
def SetBytes (buf : Bytes) : ℤ :=
  ((buf.foldl (fun acc b => acc * 256 + b.val) 0 : ℕ) : ℤ)

/-! ## Node operations -/

/-- Go `Client.sendTransaction` (`client.go` 289-310). -/
def sendTransaction (uc : Client) (env : Env) (tx : Transaction) : Run Unit := do
  let chainID ← Run.call Event.networkID uc.ethClient.NetworkID
  let sig ← Run.call (Event.signTx tx chainID) (env.SignTx tx chainID uc.signerPrivateKey)
  let signedTx : SignedTransaction := ⟨tx, sig⟩
  Run.call (Event.sendTransaction signedTx) (uc.ethClient.SendTransaction signedTx)
  Run.emit (Event.log (LogLine.transactionSent signedTx))
  let receipt ← Run.call (Event.waitMined signedTx) (uc.ethClient.WaitMined signedTx)
  Run.emit (Event.log (LogLine.receiptStatus receipt.Status))
  return ()

/-- Go `Client.MintWETH` (`client.go` 54-83).  `gasLimit += uc.cfg.GasLimitBuffer` is a
`uint64` addition. -/
def MintWETH (uc : Client) (env : Env) (amount : ℤ) (tokenAddress : Address) : Run Unit := do
  let data ← Run.lift (env.Pack "deposit" [])
  let gasPrice ← Run.call Event.suggestGasPrice uc.ethClient.SuggestGasPrice
  let nonce ← Run.call (Event.pendingNonceAt uc.signerAddress)
    (uc.ethClient.PendingNonceAt uc.signerAddress)
  let msg : CallMsg := ⟨tokenAddress, data⟩
  let gasLimit ← Run.call (Event.estimateGas msg) (uc.ethClient.EstimateGas msg)
  let gasLimit := (gasLimit + uc.cfg.GasLimitBuffer) % 2 ^ 64
  let tx : Transaction := ⟨nonce, tokenAddress, amount, gasLimit, gasPrice, data⟩
  sendTransaction uc env tx

/-- Go `Client.ApproveERC20Token` (`client.go` 85-135). -/
def ApproveERC20Token (uc : Client) (env : Env) (tokenAddress spenderAddress : Address)
    (amount : ℤ) : Run Unit := do
  let approveData ← Run.lift
    (env.Pack "approve" [AbiValue.address spenderAddress, AbiValue.uint256 amount])
  let nonce ← Run.call (Event.pendingNonceAt uc.signerAddress)
    (uc.ethClient.PendingNonceAt uc.signerAddress)
  let gasPrice ← Run.call Event.suggestGasPrice uc.ethClient.SuggestGasPrice
  let msg : CallMsg := ⟨tokenAddress, approveData⟩
  let gasLimit ← Run.call (Event.estimateGas msg) (uc.ethClient.EstimateGas msg)
  let gasLimit := (gasLimit + uc.cfg.GasLimitBuffer) % 2 ^ 64
  let tx : Transaction := ⟨nonce, tokenAddress, 0, gasLimit, gasPrice, approveData⟩
  sendTransaction uc env tx

/-- Go `Client.SwapTokens` (`client.go` 137-188).  The deadline is
`time.Now().Add(uc.cfg.DeadlineDuration).Unix()`, in whole seconds. -/
def SwapTokens (uc : Client) (env : Env) (amountIn amountOutMin : ℤ) (path : List Address) :
    Run Unit := do
  Run.emit (Event.log LogLine.swappingTokens)
  let deadline : ℤ := (env.nowUnixNano + uc.cfg.DeadlineDuration) / 1000000000
  let swapData ← Run.lift (env.Pack "swapExactTokensForTokens"
    [AbiValue.uint256 amountIn, AbiValue.uint256 amountOutMin, AbiValue.addressSlice path,
      AbiValue.address uc.signerAddress, AbiValue.uint256 deadline])
  let nonce ← Run.call (Event.pendingNonceAt uc.signerAddress)
    (uc.ethClient.PendingNonceAt uc.signerAddress)
  let gasPrice ← Run.call Event.suggestGasPrice uc.ethClient.SuggestGasPrice
  let tx : Transaction := ⟨nonce, uc.routerAddress, 0, uc.cfg.SwapGasLimit, gasPrice, swapData⟩
  sendTransaction uc env tx

/-- Go `Client.GetTokenBalance` (`client.go` 190-231). -/
def GetTokenBalance (uc : Client) (env : Env) (tokenAddress : Address) : Run ℤ := do
  let callData ← Run.lift (env.Pack "balanceOf" [AbiValue.address uc.signerAddress])
  let msg : CallMsg := ⟨tokenAddress, callData⟩
  let result ← Run.call (Event.callContract msg) (uc.ethClient.CallContract msg)
  return SetBytes result

/-- Go `Client.GetExpectedAmountOut` (`client.go` 233-287). -/
def GetExpectedAmountOut (uc : Client) (env : Env) (amountIn : ℤ) (path : List Address) :
    Run ℤ := do
  let callData ← Run.lift
    (env.Pack "getAmountsOut" [AbiValue.uint256 amountIn, AbiValue.addressSlice path])
  let msg : CallMsg := ⟨uc.routerAddress, callData⟩
  let result ← Run.call (Event.callContract msg) (uc.ethClient.CallContract msg)
  let amountsOut ← Run.lift (env.UnpackUint256Slice "getAmountsOut" result)
  if h : amountsOut.length < 2 then
    Run.lift (Except.error ⟨"unexpected result length"⟩)
  else
    return amountsOut.get ⟨amountsOut.length - 1, by omega⟩

/-! ## Concrete nodes for the worked examples -/

/-- The configuration built in `main.go`. -/
def mainConfig : Config :=
  ⟨50000, 1000000, 15 * 60 * 1000000000⟩

/-- The router address of `main.go`. -/
def uniswapV2RouterAddress : Address := 0x7a250d5630B4cF539739dF2C5dAcb4c659F2488D

/-- The input token of `main.go` (WETH). -/
def tokenInAddress : Address := 0xC02aaA39b223FE8D0A0e5C4F27eAD9083C756Cc2

/-- The output token of `main.go`. -/
def tokenOutAddress : Address := 0xA0b86991c6218b36c1d19D4a2e9Eb0cE3606eB48

/-- A scripted node: nonce 5, gas price 30 gwei, chain id 1, every submission accepted and
mined; the gas estimate, the receipt status and the response to a contract call are given. -/
def scriptedNode (estimate : Except GoError ℕ) (status : ℕ) (response : Bytes) : Node where
  SuggestGasPrice := Except.ok 30000000000
  PendingNonceAt := fun _ => Except.ok 5
  EstimateGas := fun _ => estimate
  CallContract := fun _ => Except.ok response
  NetworkID := Except.ok 1
  SendTransaction := fun _ => Except.ok ()
  WaitMined := fun _ => Except.ok ⟨status⟩

/-- Scripted libraries: packing yields the four selector bytes of `deposit()`, unpacking
yields the given amounts, signing yields a fixed signature. -/
def scriptedEnv (amounts : List ℤ) : Env where
  Pack := fun _ _ => Except.ok [0xd0, 0xe3, 0x0d, 0xb0]
  UnpackUint256Slice := fun _ _ => Except.ok amounts
  SignTx := fun _ _ _ => Except.ok ⟨1, 1, 37⟩
  nowUnixNano := 1700000000000000000

/-- A client of `node` configured as in `main.go`. -/
def scriptedClient (node : Node) : Client :=
  ⟨mainConfig, node, uniswapV2RouterAddress, 0x1111111111111111111111111111111111111111, 1⟩

/-- The signed transaction `MintWETH` of `10 ^ 18` wei to `tokenInAddress` produces against a
scripted node estimating 21000 gas. -/
def scriptedMintTx : SignedTransaction :=
  ⟨⟨5, tokenInAddress, 10 ^ 18, 71000, 30000000000, [0xd0, 0xe3, 0x0d, 0xb0]⟩, ⟨1, 1, 37⟩⟩

/-- The error a scripted node reports when gas estimation fails. -/
def executionReverted : GoError :=
  ⟨"execution reverted"⟩

/-! ## Rounding to the nearest integer -/

theorem floor_le_roundHalfEven (y : ℚ) : ⌊y⌋ ≤ roundHalfEven y := by
  unfold roundHalfEven
  simp only
  split_ifs <;> omega

theorem roundHalfEven_le_floor_add_one (y : ℚ) : roundHalfEven y ≤ ⌊y⌋ + 1 := by
  unfold roundHalfEven
  simp only
  split_ifs <;> omega

theorem roundHalfEven_intCast (n : ℤ) : roundHalfEven (n : ℚ) = n := by
  unfold roundHalfEven
  simp

theorem abs_roundHalfEven_sub_le (y : ℚ) : |(roundHalfEven y : ℚ) - y| ≤ 1 / 2 := by
  have h1 : (⌊y⌋ : ℚ) ≤ y := Int.floor_le y
  have h2 : y < ⌊y⌋ + 1 := Int.lt_floor_add_one y
  unfold roundHalfEven
  simp only
  rw [abs_le]
  split_ifs with ha hb hc
  · constructor <;> linarith
  · push_cast
    constructor <;> linarith
  · constructor <;> linarith
  · push_cast
    constructor <;> linarith

theorem roundHalfEven_mono {y z : ℚ} (h : y ≤ z) : roundHalfEven y ≤ roundHalfEven z := by
  have hf : ⌊y⌋ ≤ ⌊z⌋ := Int.floor_mono h
  rcases hf.lt_or_eq with hlt | heq
  · calc roundHalfEven y ≤ ⌊y⌋ + 1 := roundHalfEven_le_floor_add_one y
      _ ≤ ⌊z⌋ := hlt
      _ ≤ roundHalfEven z := floor_le_roundHalfEven z
  · unfold roundHalfEven
    simp only
    rw [heq]
    split_ifs <;> first | omega | (exfalso; linarith)

theorem roundHalfEven_eq_of_near (n : ℤ) (y : ℚ) (h1 : (n : ℚ) - 1 / 2 < y)
    (h2 : y < (n : ℚ) + 1 / 2) : roundHalfEven y = n := by
  have h := abs_le.mp (abs_roundHalfEven_sub_le y)
  have h3 : ((roundHalfEven y : ℤ) : ℚ) < ((n + 1 : ℤ) : ℚ) := by push_cast; linarith
  have h4 : ((n - 1 : ℤ) : ℚ) < ((roundHalfEven y : ℤ) : ℚ) := by push_cast; linarith
  have h5 := Int.cast_lt.mp h3
  have h6 := Int.cast_lt.mp h4
  omega

/-! ## Rounding to a multiple of a power of two -/

theorem two_zpow_pos (k : ℤ) : (0 : ℚ) < (2 : ℚ) ^ k :=
  zpow_pos (by norm_num) k

theorem roundAt_int_mul (k m : ℤ) :
    roundAt k ((m : ℚ) * (2 : ℚ) ^ k) = (m : ℚ) * (2 : ℚ) ^ k := by
  unfold roundAt
  rw [mul_div_assoc, div_self (two_zpow_pos k).ne', mul_one, roundHalfEven_intCast]

theorem roundAt_zero (k : ℤ) : roundAt k 0 = 0 := by
  have h := roundAt_int_mul k 0
  simpa using h

theorem abs_roundAt_sub_le (k : ℤ) (q : ℚ) : |roundAt k q - q| ≤ (2 : ℚ) ^ k / 2 := by
  have hpos := two_zpow_pos k
  have h := abs_roundHalfEven_sub_le (q / (2 : ℚ) ^ k)
  have e : roundAt k q - q =
      ((roundHalfEven (q / (2 : ℚ) ^ k) : ℚ) - q / (2 : ℚ) ^ k) * (2 : ℚ) ^ k := by
    unfold roundAt
    field_simp
  rw [e, abs_mul, abs_of_pos hpos]
  calc |(roundHalfEven (q / (2 : ℚ) ^ k) : ℚ) - q / (2 : ℚ) ^ k| * (2 : ℚ) ^ k
      ≤ 1 / 2 * (2 : ℚ) ^ k := mul_le_mul_of_nonneg_right h hpos.le
    _ = (2 : ℚ) ^ k / 2 := by ring

theorem roundAt_mono (k : ℤ) {a b : ℚ} (h : a ≤ b) : roundAt k a ≤ roundAt k b := by
  have hpos := two_zpow_pos k
  unfold roundAt
  apply mul_le_mul_of_nonneg_right _ hpos.le
  exact_mod_cast roundHalfEven_mono (div_le_div_of_nonneg_right h hpos.le)

theorem roundAt_le_int_mul (k m : ℤ) {q : ℚ} (h : q ≤ (m : ℚ) * (2 : ℚ) ^ k) :
    roundAt k q ≤ (m : ℚ) * (2 : ℚ) ^ k := by
  rw [← roundAt_int_mul k m]
  exact roundAt_mono k h

theorem int_mul_le_roundAt (k m : ℤ) {q : ℚ} (h : (m : ℚ) * (2 : ℚ) ^ k ≤ q) :
    (m : ℚ) * (2 : ℚ) ^ k ≤ roundAt k q := by
  rw [← roundAt_int_mul k m]
  exact roundAt_mono k h

theorem roundAt_nonneg (k : ℤ) {q : ℚ} (h : 0 ≤ q) : 0 ≤ roundAt k q := by
  have h0 : ((0 : ℤ) : ℚ) * (2 : ℚ) ^ k ≤ q := by simpa using h
  simpa using int_mul_le_roundAt k 0 h0

theorem roundAt_nonpos (k : ℤ) {q : ℚ} (h : q ≤ 0) : roundAt k q ≤ 0 := by
  have h0 : q ≤ ((0 : ℤ) : ℚ) * (2 : ℚ) ^ k := by simpa using h
  simpa using roundAt_le_int_mul k 0 h0

/-- An integer multiple of `2 ^ j` is an integer multiple of every smaller power of two. -/
theorem int_mul_zpow_eq (n : ℤ) {k j : ℤ} (h : k ≤ j) :
    (n : ℚ) * (2 : ℚ) ^ j = ((n * 2 ^ (j - k).toNat : ℤ) : ℚ) * (2 : ℚ) ^ k := by
  have e : j = (j - k).toNat + k := by
    rw [Int.toNat_of_nonneg (by omega)]
    ring
  conv_lhs => rw [e]
  rw [zpow_add₀ (by norm_num : (2 : ℚ) ≠ 0), zpow_natCast]
  push_cast
  ring

theorem roundAt_le_mul_zpow (n : ℤ) {k j : ℤ} (h : k ≤ j) {q : ℚ}
    (hq : q ≤ (n : ℚ) * (2 : ℚ) ^ j) : roundAt k q ≤ (n : ℚ) * (2 : ℚ) ^ j := by
  rw [int_mul_zpow_eq n h] at hq ⊢
  exact roundAt_le_int_mul k _ hq

theorem mul_zpow_le_roundAt (n : ℤ) {k j : ℤ} (h : k ≤ j) {q : ℚ}
    (hq : (n : ℚ) * (2 : ℚ) ^ j ≤ q) : (n : ℚ) * (2 : ℚ) ^ j ≤ roundAt k q := by
  rw [int_mul_zpow_eq n h] at hq ⊢
  exact int_mul_le_roundAt k _ hq

theorem roundAt_le_zpow {k j : ℤ} (h : k ≤ j) {q : ℚ} (hq : q ≤ (2 : ℚ) ^ j) :
    roundAt k q ≤ (2 : ℚ) ^ j := by
  have h1 : q ≤ ((1 : ℤ) : ℚ) * (2 : ℚ) ^ j := by simpa using hq
  simpa using roundAt_le_mul_zpow 1 h h1

theorem zpow_le_roundAt {k j : ℤ} (h : k ≤ j) {q : ℚ} (hq : (2 : ℚ) ^ j ≤ q) :
    (2 : ℚ) ^ j ≤ roundAt k q := by
  have h1 : ((1 : ℤ) : ℚ) * (2 : ℚ) ^ j ≤ q := by simpa using hq
  simpa using mul_zpow_le_roundAt 1 h h1

/-! ## The binade of a rational -/

theorem zpow_log_le {q : ℚ} (h : 0 < q) : (2 : ℚ) ^ Int.log 2 q ≤ q := by
  have := Int.zpow_log_le_self (b := 2) (by norm_num) h
  simpa using this

theorem lt_zpow_log_succ (q : ℚ) : q < (2 : ℚ) ^ (Int.log 2 q + 1) := by
  have := Int.lt_zpow_succ_log_self (b := 2) (by norm_num) q
  simpa using this

theorem log_lt_of_lt_zpow {q : ℚ} (h : 0 < q) {j : ℤ} (hq : q < (2 : ℚ) ^ j) :
    Int.log 2 q < j := by
  have := (Int.lt_zpow_iff_log_lt (b := 2) (by norm_num) (x := j) h).mp (by simpa using hq)
  exact this

theorem le_log_of_zpow_le {q : ℚ} (h : 0 < q) {j : ℤ} (hq : (2 : ℚ) ^ j ≤ q) :
    j ≤ Int.log 2 q := by
  have := (Int.zpow_le_iff_le_log (b := 2) (by norm_num) (x := j) h).mp (by simpa using hq)
  exact this

theorem log_eq_of_bounds {q : ℚ} {j : ℤ} (h1 : (2 : ℚ) ^ j ≤ q)
    (h2 : q < (2 : ℚ) ^ (j + 1)) :
    Int.log 2 q = j := by
  have hpos : 0 < q := lt_of_lt_of_le (two_zpow_pos j) h1
  have := log_lt_of_lt_zpow hpos h2
  have := le_log_of_zpow_le hpos h1
  omega

theorem log_le_log {a b : ℚ} (h0 : 0 < a) (h : a ≤ b) : Int.log 2 a ≤ Int.log 2 b :=
  Int.log_mono_right h0 h

/-- Rounding is monotone across binades: a larger positive operand rounded at a quantum that
is no finer, and that is at most the binade of the operand when it is coarser. -/
theorem roundAt_le_roundAt {a b : ℚ} {ka kb : ℤ} (h0 : 0 < a) (hab : a ≤ b) (hk : ka ≤ kb)
    (hlog : ka < kb → kb ≤ Int.log 2 b ∧ Int.log 2 a < Int.log 2 b) :
    roundAt ka a ≤ roundAt kb b := by
  rcases hk.lt_or_eq with hlt | heq
  · obtain ⟨h1, h2⟩ := hlog hlt
    have hb : 0 < b := lt_of_lt_of_le h0 hab
    have ha' : a ≤ (2 : ℚ) ^ Int.log 2 b := by
      have := lt_zpow_log_succ a
      have hle : (2 : ℚ) ^ (Int.log 2 a + 1) ≤ (2 : ℚ) ^ Int.log 2 b :=
        zpow_le_zpow_right₀ (by norm_num) (by omega)
      linarith
    calc roundAt ka a ≤ (2 : ℚ) ^ Int.log 2 b := roundAt_le_zpow (by omega) ha'
      _ ≤ roundAt kb b := zpow_le_roundAt h1 (zpow_log_le hb)
  · rw [heq]
    exact roundAt_mono kb hab

/-! ## `float64` rounding -/

theorem float64Round_zero : float64Round 0 = 0 :=
  roundAt_zero _

theorem float64Round_nonneg {q : ℚ} (h : 0 ≤ q) : 0 ≤ float64Round q :=
  roundAt_nonneg _ h

theorem float64Round_nonpos {q : ℚ} (h : q ≤ 0) : float64Round q ≤ 0 :=
  roundAt_nonpos _ h

theorem float64Round_mono_of_nonneg {a b : ℚ} (h0 : 0 ≤ a) (hab : a ≤ b) :
    float64Round a ≤ float64Round b := by
  rcases h0.lt_or_eq with hpos | hzero
  · have hb : 0 < b := lt_of_lt_of_le hpos hab
    have hl : Int.log 2 a ≤ Int.log 2 b := log_le_log hpos hab
    unfold float64Round float64Ulp
    rw [abs_of_pos hpos, abs_of_pos hb]
    apply roundAt_le_roundAt hpos hab
    · exact max_le_max (by omega) le_rfl
    · intro hlt
      have h1 : -1074 < Int.log 2 b - 52 := by
        by_contra hcon
        rw [max_eq_right (by omega : Int.log 2 b - 52 ≤ -1074)] at hlt
        exact absurd hlt (not_lt.mpr (le_max_right _ _))
      rw [max_eq_left h1.le] at hlt ⊢
      refine ⟨by omega, ?_⟩
      have := le_max_left (Int.log 2 a - 52) (-1074)
      omega
  · rw [← hzero, float64Round_zero]
    exact float64Round_nonneg (hzero ▸ hab)

theorem float64Round_one : float64Round 1 = 1 := by
  have hl : Int.log 2 |(1 : ℚ)| = 0 := by
    rw [abs_one]
    exact log_eq_of_bounds (by norm_num) (by norm_num)
  unfold float64Round float64Ulp
  rw [hl]
  have h := roundAt_int_mul (-52) (2 ^ 52)
  norm_num at h ⊢
  exact h

theorem float64Round_le_one {q : ℚ} (h : q ≤ 1) : float64Round q ≤ 1 := by
  rcases le_or_lt q 0 with hq | hq
  · exact le_trans (float64Round_nonpos hq) zero_le_one
  · rw [← float64Round_one]
    exact float64Round_mono_of_nonneg hq.le h

theorem one_le_float64Round {q : ℚ} (h : 1 ≤ q) : 1 ≤ float64Round q := by
  rw [← float64Round_one]
  exact float64Round_mono_of_nonneg zero_le_one h

/-- On `[0, 1]` the `float64` rounding error is at most `2 ^ (-54)`, half a unit in the last
place of the binade below 1. -/
theorem abs_float64Round_sub_le {q : ℚ} (h0 : 0 ≤ q) (h1 : q ≤ 1) :
    |float64Round q - q| ≤ 1 / 2 ^ 54 := by
  rcases h1.lt_or_eq with hlt | heq
  · rcases h0.lt_or_eq with hpos | hzero
    · have hl : Int.log 2 q < 0 := log_lt_of_lt_zpow hpos (by simpa using hlt)
      have hk : float64Ulp q ≤ -53 := by
        unfold float64Ulp
        rw [abs_of_pos hpos]
        exact max_le (by omega) (by norm_num)
      have hz : (2 : ℚ) ^ float64Ulp q ≤ (2 : ℚ) ^ (-53 : ℤ) :=
        zpow_le_zpow_right₀ (by norm_num) hk
      have he := abs_roundAt_sub_le (float64Ulp q) q
      have e : (2 : ℚ) ^ (-53 : ℤ) / 2 = 1 / 2 ^ 54 := by norm_num
      unfold float64Round
      calc |roundAt (float64Ulp q) q - q| ≤ (2 : ℚ) ^ float64Ulp q / 2 := he
        _ ≤ (2 : ℚ) ^ (-53 : ℤ) / 2 := div_le_div_of_nonneg_right hz (by norm_num)
        _ = 1 / 2 ^ 54 := e
    · rw [← hzero, float64Round_zero]
      norm_num
  · rw [heq, float64Round_one]
    norm_num

/-! ## `big.Float` rounding -/

theorem bigFloatRound_zero (p : ℕ) : bigFloatRound p 0 = 0 :=
  roundAt_zero _

theorem bigFloatRound_nonneg (p : ℕ) {q : ℚ} (h : 0 ≤ q) : 0 ≤ bigFloatRound p q :=
  roundAt_nonneg _ h

theorem bigFloatRound_nonpos (p : ℕ) {q : ℚ} (h : q ≤ 0) : bigFloatRound p q ≤ 0 :=
  roundAt_nonpos _ h

theorem bigFloatRound_mono_of_nonneg {p : ℕ} (hp : 1 ≤ p) {a b : ℚ} (h0 : 0 ≤ a)
    (hab : a ≤ b) : bigFloatRound p a ≤ bigFloatRound p b := by
  rcases h0.lt_or_eq with hpos | hzero
  · have hb : 0 < b := lt_of_lt_of_le hpos hab
    have hl : Int.log 2 a ≤ Int.log 2 b := log_le_log hpos hab
    unfold bigFloatRound
    rw [abs_of_pos hpos, abs_of_pos hb]
    apply roundAt_le_roundAt hpos hab
    · omega
    · intro hlt
      constructor <;> omega
  · rw [← hzero, bigFloatRound_zero]
    exact bigFloatRound_nonneg p (hzero ▸ hab)

/-- The binade of a positive rational below a natural number of at most `p` bits. -/
theorem log_lt_of_le_natCast {q : ℚ} (hq : 0 < q) {n p : ℕ} (hn : q ≤ n)
    (hp : Nat.size n ≤ p) : Int.log 2 q < p := by
  have h1 : n < 2 ^ p := Nat.size_le.mp hp
  have h2 : (n : ℚ) < (2 : ℚ) ^ (p : ℤ) := by
    rw [zpow_natCast]
    exact_mod_cast h1
  exact log_lt_of_lt_zpow hq (lt_of_le_of_lt hn h2)

theorem bigFloatRound_le_natCast {p : ℕ} {q : ℚ} {n : ℕ} (hn : q ≤ n)
    (hp : Nat.size n ≤ p) : bigFloatRound p q ≤ n := by
  rcases le_or_lt q 0 with hq | hq
  · exact le_trans (bigFloatRound_nonpos p hq) (Nat.cast_nonneg n)
  · have hl := log_lt_of_le_natCast hq hn hp
    have hn' : q ≤ ((n : ℤ) : ℚ) * (2 : ℚ) ^ (0 : ℤ) := by simpa using hn
    have hk : Int.log 2 |q| - ((p : ℤ) - 1) ≤ 0 := by
      rw [abs_of_pos hq]
      omega
    have := roundAt_le_mul_zpow (n : ℤ) hk hn'
    simpa [bigFloatRound] using this

theorem natCast_le_bigFloatRound {p : ℕ} (h1 : 1 ≤ p) {q : ℚ} {n : ℕ} (hn : (n : ℚ) ≤ q)
    (hp : Nat.size n ≤ p) : (n : ℚ) ≤ bigFloatRound p q := by
  have hn0 : (0 : ℚ) ≤ n := Nat.cast_nonneg n
  rcases (le_trans hn0 hn).lt_or_eq with hq | hq
  · unfold bigFloatRound
    rw [abs_of_pos hq]
    rcases le_or_lt (Int.log 2 q - ((p : ℤ) - 1)) 0 with hk | hk
    · have hn' : ((n : ℤ) : ℚ) * (2 : ℚ) ^ (0 : ℤ) ≤ q := by simpa using hn
      simpa using mul_zpow_le_roundAt (n : ℤ) hk hn'
    · have h2 : (n : ℚ) < (2 : ℚ) ^ (p : ℤ) := by
        rw [zpow_natCast]
        exact_mod_cast Nat.size_le.mp hp
      have h3 : (2 : ℚ) ^ (p : ℤ) ≤ (2 : ℚ) ^ Int.log 2 q :=
        zpow_le_zpow_right₀ (by norm_num) (by omega)
      have h4 : (2 : ℚ) ^ Int.log 2 q ≤ roundAt (Int.log 2 q - ((p : ℤ) - 1)) q :=
        zpow_le_roundAt (by omega) (zpow_log_le hq)
      linarith
  · rw [← hq, bigFloatRound_zero]
    linarith

/-- A `big.Float` whose precision is at least the bit length of an integer holds it exactly. -/
theorem bigFloatRound_intCast {p : ℕ} (x : ℤ) (hp : bitLen x ≤ p) :
    bigFloatRound p (x : ℚ) = x := by
  rcases eq_or_ne x 0 with hx | hx
  · rw [hx, Int.cast_zero, bigFloatRound_zero]
  · have habs : |(x : ℚ)| = ((x.natAbs : ℕ) : ℚ) := by
      rw [Nat.cast_natAbs, Int.cast_abs]
    have hpos : 0 < |(x : ℚ)| := abs_pos.mpr (Int.cast_ne_zero.mpr hx)
    have hl : Int.log 2 |(x : ℚ)| < p := log_lt_of_le_natCast hpos habs.le hp
    have hk : Int.log 2 |(x : ℚ)| - ((p : ℤ) - 1) ≤ 0 := by omega
    unfold bigFloatRound
    generalize Int.log 2 |(x : ℚ)| - ((p : ℤ) - 1) = k at hk
    have e := int_mul_zpow_eq x hk
    rw [zpow_zero, mul_one] at e
    rw [e, roundAt_int_mul]

/-- Below a natural number of at most `p` bits the quantum of a `big.Float` of precision `p`
is at most 1, so the rounding error is at most one half. -/
theorem abs_bigFloatRound_sub_le {p : ℕ} {q : ℚ} {n : ℕ} (h0 : 0 ≤ q) (hn : q ≤ n)
    (hp : Nat.size n ≤ p) : |bigFloatRound p q - q| ≤ 1 / 2 := by
  rcases h0.lt_or_eq with hq | hq
  · have hl := log_lt_of_le_natCast hq hn hp
    have hk : Int.log 2 |q| - ((p : ℤ) - 1) ≤ 0 := by
      rw [abs_of_pos hq]
      omega
    have hz : (2 : ℚ) ^ (Int.log 2 |q| - ((p : ℤ) - 1)) ≤ (2 : ℚ) ^ (0 : ℤ) :=
      zpow_le_zpow_right₀ (by norm_num) hk
    rw [zpow_zero] at hz
    calc |bigFloatRound p q - q| ≤ (2 : ℚ) ^ (Int.log 2 |q| - ((p : ℤ) - 1)) / 2 :=
          abs_roundAt_sub_le _ q
      _ ≤ 1 / 2 := div_le_div_of_nonneg_right hz (by norm_num)
  · rw [← hq, bigFloatRound_zero]
    norm_num

/-! ## Truncation -/

theorem BigFloat.Int_of_nonneg {x : BigFloat} (h : 0 ≤ x.val) : x.Int = ⌊x.val⌋ := by
  unfold BigFloat.Int
  rw [if_pos h]

theorem BigFloat.Int_of_nonpos {x : BigFloat} (h : x.val ≤ 0) : x.Int = ⌈x.val⌉ := by
  unfold BigFloat.Int
  split_ifs with h0
  · have : x.val = 0 := le_antisymm h h0
    rw [this]
    simp
  · rfl

theorem BigFloat.Int_intCast (p : ℕ) (n : ℤ) : (BigFloat.mk p (n : ℚ)).Int = n := by
  unfold BigFloat.Int
  split_ifs <;> simp

/-! ## The slippage factor -/

theorem CalculateAmountOutMin_eq (x : ℤ) (s : ℚ) :
    CalculateAmountOutMin x s =
      (BigFloat.mk (max (max (bitLen x) 64) 53)
        (bigFloatRound (max (max (bitLen x) 64) 53)
          ((x : ℚ) * float64Round (1 - float64Round (s / 100))))).Int :=
  rfl

theorem one_le_prec (x : ℤ) : 1 ≤ max (max (bitLen x) 64) 53 :=
  le_trans (by norm_num) (le_max_right _ _)

theorem size_natAbs_le_prec (x : ℤ) : Nat.size x.natAbs ≤ max (max (bitLen x) 64) 53 :=
  le_trans (le_max_left _ _) (le_max_left _ _)

/-- For a slippage percentage in `[0, 100]` the `float64` slippage factor lies in `[0, 1]` and
is within `2 ^ (-53)` of `1 - s / 100`. -/
theorem slippageFactor_bounds {s : ℚ} (h0 : 0 ≤ s) (h1 : s ≤ 100) :
    0 ≤ float64Round (1 - float64Round (s / 100)) ∧
    float64Round (1 - float64Round (s / 100)) ≤ 1 ∧
    |float64Round (1 - float64Round (s / 100)) - (1 - s / 100)| ≤ 1 / 2 ^ 53 := by
  have hq0 : 0 ≤ s / 100 := by positivity
  have hq1 : s / 100 ≤ 1 := by linarith
  have ht0 : 0 ≤ float64Round (s / 100) := float64Round_nonneg hq0
  have ht1 : float64Round (s / 100) ≤ 1 := float64Round_le_one hq1
  have hte := abs_le.mp (abs_float64Round_sub_le hq0 hq1)
  have hu0 : 0 ≤ 1 - float64Round (s / 100) := by linarith
  have hu1 : 1 - float64Round (s / 100) ≤ 1 := by linarith
  have hfe := abs_le.mp (abs_float64Round_sub_le hu0 hu1)
  refine ⟨float64Round_nonneg hu0, float64Round_le_one hu1, ?_⟩
  rw [abs_le]
  have e : (1 : ℚ) / 2 ^ 53 = 1 / 2 ^ 54 + 1 / 2 ^ 54 := by norm_num
  constructor <;> linarith [hte.1, hte.2, hfe.1, hfe.2]

theorem slippageFactor_antitone {s₁ s₂ : ℚ} (h0 : 0 ≤ s₁) (h12 : s₁ ≤ s₂)
    (h1 : s₂ ≤ 100) :
    float64Round (1 - float64Round (s₂ / 100)) ≤
      float64Round (1 - float64Round (s₁ / 100)) := by
  have hq0 : 0 ≤ s₁ / 100 := by positivity
  have hq : s₁ / 100 ≤ s₂ / 100 := by linarith
  have ht : float64Round (s₁ / 100) ≤ float64Round (s₂ / 100) :=
    float64Round_mono_of_nonneg hq0 hq
  have ht1 : float64Round (s₂ / 100) ≤ 1 := float64Round_le_one (by linarith)
  exact float64Round_mono_of_nonneg (by linarith) (by linarith)

/-! ## `CalculateAmountOutMin` -/

/-- C9: for every integer `x`, in particular every non-negative one,
`CalculateAmountOutMin x 0 = x` and `CalculateAmountOutMin x 100 = 0`. -/
theorem CalculateAmountOutMin_zero_and_hundred (x : ℤ) :
    CalculateAmountOutMin x 0 = x ∧ CalculateAmountOutMin x 100 = 0 := by
  constructor
  · rw [CalculateAmountOutMin_eq, zero_div, float64Round_zero, sub_zero, float64Round_one,
      mul_one, bigFloatRound_intCast x (size_natAbs_le_prec x), BigFloat.Int_intCast]
  · rw [CalculateAmountOutMin_eq, div_self (by norm_num), float64Round_one, sub_self,
      float64Round_zero, mul_zero, bigFloatRound_zero]
    exact_mod_cast BigFloat.Int_intCast _ 0

/-- C10: for every non-negative integer `x` and slippage percentages `0 ≤ s₁ ≤ s₂ ≤ 100`,
`CalculateAmountOutMin x s₂ ≤ CalculateAmountOutMin x s₁`. -/
theorem CalculateAmountOutMin_antitone (x : ℤ) (s₁ s₂ : ℚ) (hx : 0 ≤ x) (h0 : 0 ≤ s₁)
    (h12 : s₁ ≤ s₂) (h1 : s₂ ≤ 100) :
    CalculateAmountOutMin x s₂ ≤ CalculateAmountOutMin x s₁ := by
  have hx' : (0 : ℚ) ≤ x := Int.cast_nonneg.mpr hx
  have hf := slippageFactor_antitone h0 h12 h1
  have hf2 := (slippageFactor_bounds (le_trans h0 h12) h1).1
  have hP : (x : ℚ) * float64Round (1 - float64Round (s₂ / 100)) ≤
      (x : ℚ) * float64Round (1 - float64Round (s₁ / 100)) :=
    mul_le_mul_of_nonneg_left hf hx'
  have hP0 : 0 ≤ (x : ℚ) * float64Round (1 - float64Round (s₂ / 100)) := mul_nonneg hx' hf2
  have hR := bigFloatRound_mono_of_nonneg (one_le_prec x) hP0 hP
  have hR0 := bigFloatRound_nonneg (max (max (bitLen x) 64) 53) hP0
  rw [CalculateAmountOutMin_eq, CalculateAmountOutMin_eq,
    BigFloat.Int_of_nonneg hR0, BigFloat.Int_of_nonneg (le_trans hR0 hR)]
  exact Int.floor_mono hR

/-- C10 at `x = 10 ^ 18` and the slippage percentages 1 and 2. -/
theorem CalculateAmountOutMin_antitone_witness :
    (0 : ℤ) ≤ 10 ^ 18 ∧ (0 : ℚ) ≤ 1 ∧ (1 : ℚ) ≤ 2 ∧ (2 : ℚ) ≤ 100 ∧
    CalculateAmountOutMin (10 ^ 18) 2 ≤ CalculateAmountOutMin (10 ^ 18) 1 :=
  ⟨by norm_num, by norm_num, by norm_num, by norm_num,
   CalculateAmountOutMin_antitone (10 ^ 18) 1 2 (by norm_num) (by norm_num) (by norm_num)
     (by norm_num)⟩

/-- C1, as the code behaves: for every non-negative integer `x` and slippage percentage `s` in
`[0, 100]`, the result of the binary floating-point computation is within `x / 2 ^ 53 + 3 / 2`
of the exact `x * (100 - s) / 100`. -/
theorem CalculateAmountOutMin_near_exact (x : ℤ) (s : ℚ) (hx : 0 ≤ x) (h0 : 0 ≤ s)
    (h1 : s ≤ 100) :
    |((CalculateAmountOutMin x s : ℤ) : ℚ) - (x : ℚ) * (100 - s) / 100| ≤
      (x : ℚ) / 2 ^ 53 + 3 / 2 := by
  have hx' : (0 : ℚ) ≤ x := Int.cast_nonneg.mpr hx
  obtain ⟨hf0, hf1, hfe⟩ := slippageFactor_bounds h0 h1
  rw [CalculateAmountOutMin_eq]
  generalize float64Round (1 - float64Round (s / 100)) = f at hf0 hf1 hfe ⊢
  have hxn : (x : ℚ) = ((x.natAbs : ℕ) : ℚ) := by
    rw [Nat.cast_natAbs, abs_of_nonneg hx]
  have hP0 : 0 ≤ (x : ℚ) * f := mul_nonneg hx' hf0
  have hPn : (x : ℚ) * f ≤ ((x.natAbs : ℕ) : ℚ) := by
    rw [← hxn]
    exact mul_le_of_le_one_right hx' hf1
  have hRe := abs_le.mp (abs_bigFloatRound_sub_le hP0 hPn (size_natAbs_le_prec x))
  have hR0 := bigFloatRound_nonneg (max (max (bitLen x) 64) 53) hP0
  rw [BigFloat.Int_of_nonneg hR0]
  generalize bigFloatRound (max (max (bitLen x) 64) 53) ((x : ℚ) * f) = R at hRe hR0 ⊢
  have hfl1 : ((⌊R⌋ : ℤ) : ℚ) ≤ R := Int.floor_le R
  have hfl2 : R < ((⌊R⌋ : ℤ) : ℚ) + 1 := Int.lt_floor_add_one R
  have hfe' := abs_le.mp hfe
  have hm1 : (x : ℚ) * (f - (1 - s / 100)) ≤ (x : ℚ) * (1 / 2 ^ 53) :=
    mul_le_mul_of_nonneg_left hfe'.2 hx'
  have hm2 : (x : ℚ) * (-(1 / 2 ^ 53)) ≤ (x : ℚ) * (f - (1 - s / 100)) :=
    mul_le_mul_of_nonneg_left hfe'.1 hx'
  rw [abs_le]
  constructor <;> nlinarith [hRe.1, hRe.2]

/-- C2, as the code behaves: for every non-negative integer `x`, a slippage percentage outside
`[0, 100]` is not rejected; the computation yields an amount that is at least `x` when the
percentage is negative and at most 0 when it exceeds 100. -/
theorem CalculateAmountOutMin_outside_range (x : ℤ) (s : ℚ) (hx : 0 ≤ x) :
    (s < 0 → x ≤ CalculateAmountOutMin x s) ∧ (100 < s → CalculateAmountOutMin x s ≤ 0) := by
  have hx' : (0 : ℚ) ≤ x := Int.cast_nonneg.mpr hx
  constructor
  · intro hs
    have ht : float64Round (s / 100) ≤ 0 := float64Round_nonpos (by linarith)
    have hf : 1 ≤ float64Round (1 - float64Round (s / 100)) :=
      one_le_float64Round (by linarith)
    rw [CalculateAmountOutMin_eq]
    generalize float64Round (1 - float64Round (s / 100)) = f at hf ⊢
    have hxn : (x : ℚ) = ((x.natAbs : ℕ) : ℚ) := by
      rw [Nat.cast_natAbs, abs_of_nonneg hx]
    have hP : ((x.natAbs : ℕ) : ℚ) ≤ (x : ℚ) * f := by
      rw [← hxn]
      exact le_mul_of_one_le_right hx' hf
    have hR := natCast_le_bigFloatRound (one_le_prec x) hP (size_natAbs_le_prec x)
    rw [← hxn] at hR
    rw [BigFloat.Int_of_nonneg (le_trans hx' hR)]
    exact Int.le_floor.mpr hR
  · intro hs
    have ht : 1 ≤ float64Round (s / 100) := one_le_float64Round (by linarith)
    have hf : float64Round (1 - float64Round (s / 100)) ≤ 0 :=
      float64Round_nonpos (by linarith)
    rw [CalculateAmountOutMin_eq]
    generalize float64Round (1 - float64Round (s / 100)) = f at hf ⊢
    have hP : (x : ℚ) * f ≤ 0 := mul_nonpos_of_nonneg_of_nonpos hx' hf
    have hR := bigFloatRound_nonpos (max (max (bitLen x) 64) 53) hP
    rw [BigFloat.Int_of_nonpos hR]
    exact Int.ceil_le.mpr (by simpa using hR)

/-! ## Worked values -/

/-- A `float64` rounding certified by its binade `l` and its significand `n`. -/
theorem float64Round_eq_of {q : ℚ} (l n : ℤ) (hl1 : (2 : ℚ) ^ l ≤ |q|)
    (hl2 : |q| < (2 : ℚ) ^ (l + 1)) (hk : -1074 ≤ l - 52)
    (h1 : (n : ℚ) - 1 / 2 < q / (2 : ℚ) ^ (l - 52))
    (h2 : q / (2 : ℚ) ^ (l - 52) < (n : ℚ) + 1 / 2) :
    float64Round q = (n : ℚ) * (2 : ℚ) ^ (l - 52) := by
  unfold float64Round float64Ulp roundAt
  rw [log_eq_of_bounds hl1 hl2, max_eq_left hk, roundHalfEven_eq_of_near n _ h1 h2]

/-- A `big.Float` rounding certified by its binade `l` and its significand `n`. -/
theorem bigFloatRound_eq_of {p : ℕ} {q : ℚ} (l n : ℤ) (hl1 : (2 : ℚ) ^ l ≤ |q|)
    (hl2 : |q| < (2 : ℚ) ^ (l + 1))
    (h1 : (n : ℚ) - 1 / 2 < q / (2 : ℚ) ^ (l - ((p : ℤ) - 1)))
    (h2 : q / (2 : ℚ) ^ (l - ((p : ℤ) - 1)) < (n : ℚ) + 1 / 2) :
    bigFloatRound p q = (n : ℚ) * (2 : ℚ) ^ (l - ((p : ℤ) - 1)) := by
  unfold bigFloatRound roundAt
  rw [log_eq_of_bounds hl1 hl2, roundHalfEven_eq_of_near n _ h1 h2]

theorem prec_of_lt {x : ℤ} (h : x.natAbs < 2 ^ 64) : max (max (bitLen x) 64) 53 = 64 := by
  have : bitLen x ≤ 64 := Nat.size_le.mpr h
  omega

/-- The `float64` slippage factor of `main.go`, `1 - 1.0 / 100`. -/
theorem slippageFactor_one :
    float64Round (1 - float64Round (1 / 100)) = 4458563631096791 / 4503599627370496 := by
  have ht : float64Round ((1 : ℚ) / 100) = 5764607523034235 / 576460752303423488 := by
    rw [float64Round_eq_of (-7) 5764607523034235] <;> norm_num [abs_of_pos]
  rw [ht, float64Round_eq_of (-1) 8917127262193582] <;> norm_num [abs_of_pos]

/-- The value `CalculateAmountOutMin` returns for `10 ^ 18` at 1 percent. -/
theorem CalculateAmountOutMin_one_percent :
    CalculateAmountOutMin (10 ^ 18) 1 = 989999999999999991 := by
  have hR : bigFloatRound 64 (((10 ^ 18 : ℤ) : ℚ) * (4458563631096791 / 4503599627370496)) =
      7919999999999999929 / 8 := by
    rw [bigFloatRound_eq_of 59 15839999999999999858] <;> norm_num [abs_of_pos]
  rw [CalculateAmountOutMin_eq, slippageFactor_one, prec_of_lt (by norm_num), hR]
  unfold BigFloat.Int
  rw [if_pos (by norm_num), Int.floor_eq_iff]
  norm_num

/-- The value `CalculateAmountOutMin` returns for `10 ^ 18` at 101 percent. -/
theorem CalculateAmountOutMin_hundred_one_percent :
    CalculateAmountOutMin (10 ^ 18) 101 = -10000000000000008 := by
  have ht : float64Round ((101 : ℚ) / 100) = 4548635623644201 / 4503599627370496 := by
    rw [float64Round_eq_of 0 4548635623644201] <;> norm_num [abs_of_pos]
  have hf : float64Round (1 - 4548635623644201 / 4503599627370496) =
      -45035996273705 / 4503599627370496 := by
    rw [float64Round_eq_of (-7) (-5764607523034240)] <;> norm_num [abs_of_neg]
  have hR : bigFloatRound 64 (((10 ^ 18 : ℤ) : ℚ) * (-45035996273705 / 4503599627370496)) =
      -10240000000000009095 / 1024 := by
    rw [bigFloatRound_eq_of 53 (-10240000000000009095)] <;> norm_num [abs_of_neg]
  rw [CalculateAmountOutMin_eq, ht, hf, prec_of_lt (by norm_num), hR]
  unfold BigFloat.Int
  rw [if_neg (by norm_num), Int.ceil_eq_iff]
  norm_num

/-- C1 fails as stated: at `expectedAmountOut = 10 ^ 18` and 1 percent, the input of
`main.go`, the code returns 989999999999999991 while the exact floor is
990000000000000000. -/
theorem CalculateAmountOutMin_not_exact_floor :
    CalculateAmountOutMin (10 ^ 18) 1 = 989999999999999991 ∧
    minOutputSpec (10 ^ 18) 1 = MinOutputResult.amount 990000000000000000 ∧
    MinOutputResult.amount (CalculateAmountOutMin (10 ^ 18) 1) ≠ minOutputSpec (10 ^ 18) 1 := by
  have hspec : minOutputSpec (10 ^ 18) 1 = MinOutputResult.amount 990000000000000000 := by
    unfold minOutputSpec
    rw [if_neg (by norm_num)]
    congr 1
    rw [Int.floor_eq_iff]
    norm_num
  refine ⟨CalculateAmountOutMin_one_percent, hspec, ?_⟩
  rw [CalculateAmountOutMin_one_percent, hspec]
  decide

/-- C1 at `expectedAmountOut = 10 ^ 18` and 1 percent, the input of `main.go`. -/
theorem CalculateAmountOutMin_near_exact_witness :
    (0 : ℤ) ≤ 10 ^ 18 ∧ (0 : ℚ) ≤ 1 ∧ (1 : ℚ) ≤ 100 ∧
    |((CalculateAmountOutMin (10 ^ 18) 1 : ℤ) : ℚ) - ((10 ^ 18 : ℤ) : ℚ) * (100 - 1) / 100| ≤
      ((10 ^ 18 : ℤ) : ℚ) / 2 ^ 53 + 3 / 2 :=
  ⟨by norm_num, by norm_num, by norm_num,
   CalculateAmountOutMin_near_exact (10 ^ 18) 1 (by norm_num) (by norm_num) (by norm_num)⟩

/-- C2 fails as stated: at `expectedAmountOut = 10 ^ 18` and 101 percent the contract of the
specification is `InvalidSlippage`, while the code returns the amount -10000000000000008. -/
theorem CalculateAmountOutMin_accepts_invalid_slippage :
    minOutputSpec (10 ^ 18) 101 = MinOutputResult.invalidSlippage ∧
    CalculateAmountOutMin (10 ^ 18) 101 = -10000000000000008 ∧
    MinOutputResult.amount (CalculateAmountOutMin (10 ^ 18) 101) ≠
      minOutputSpec (10 ^ 18) 101 := by
  have hspec : minOutputSpec (10 ^ 18) 101 = MinOutputResult.invalidSlippage := by
    unfold minOutputSpec
    rw [if_pos (by norm_num)]
  refine ⟨hspec, CalculateAmountOutMin_hundred_one_percent, ?_⟩
  rw [hspec]
  exact fun h => MinOutputResult.noConfusion h

/-- C2 at `expectedAmountOut = 10 ^ 18`: the percentage -1 yields at least `10 ^ 18` and the
percentage 101 yields at most 0. -/
theorem CalculateAmountOutMin_outside_range_witness :
    (0 : ℤ) ≤ 10 ^ 18 ∧ (-1 : ℚ) < 0 ∧ (100 : ℚ) < 101 ∧
    10 ^ 18 ≤ CalculateAmountOutMin (10 ^ 18) (-1) ∧ CalculateAmountOutMin (10 ^ 18) 101 ≤ 0 :=
  ⟨by norm_num, by norm_num, by norm_num,
   (CalculateAmountOutMin_outside_range (10 ^ 18) (-1) (by norm_num)).1 (by norm_num),
   (CalculateAmountOutMin_outside_range (10 ^ 18) 101 (by norm_num)).2 (by norm_num)⟩

/-! ## Runs: sequencing -/

theorem Run.mem_trace_bind {α β : Type} (r : Run α) (f : α → Run β) (ev : Event) :
    ev ∈ (r >>= f).trace ↔ ev ∈ r.trace ∨ ∃ a, r.result = Except.ok a ∧ ev ∈ (f a).trace := by
  show ev ∈ (Run.bind r f).trace ↔ _
  unfold Run.bind
  rcases h : r.result with e | a <;> simp

theorem Run.result_bind_ok {α β : Type} (r : Run α) (f : α → Run β) (b : β) :
    (r >>= f).result = Except.ok b ↔
      ∃ a, r.result = Except.ok a ∧ (f a).result = Except.ok b := by
  show (Run.bind r f).result = _ ↔ _
  unfold Run.bind
  rcases h : r.result with e | a <;> simp

theorem Run.result_bind_error {α β : Type} (r : Run α) (f : α → Run β) (e : GoError) :
    (r >>= f).result = Except.error e ↔
      r.result = Except.error e ∨
        ∃ a, r.result = Except.ok a ∧ (f a).result = Except.error e := by
  show (Run.bind r f).result = _ ↔ _
  unfold Run.bind
  rcases h : r.result with e | a <;> simp

/-! ## `sendTransaction` -/

theorem sendTransaction_mined (uc : Client) (env : Env) (tx : Transaction)
    (stx : SignedTransaction) (receipt : Receipt)
    (hin : Event.waitMined stx ∈ (sendTransaction uc env tx).trace)
    (hmined : uc.ethClient.WaitMined stx = Except.ok receipt) :
    (sendTransaction uc env tx).result = Except.ok () := by
  unfold sendTransaction at hin ⊢
  simp only [Run.mem_trace_bind, Run.call, Run.emit, List.mem_singleton, List.not_mem_nil,
    false_or, reduceCtorEq, pure, Run.pure, Event.waitMined.injEq] at hin
  obtain ⟨c, hc, sig, hsig, u, hu, -, -, h⟩ := hin
  rcases h with h | ⟨r, -, h⟩
  · subst h
    simp [Run.result_bind_ok, Run.call, Run.emit, pure, Run.pure, hc, hsig, hu, hmined]
  · simp at h

theorem sendTransaction_signTx_mem (uc : Client) (env : Env) (tx tx' : Transaction) (c : ℤ) :
    Event.signTx tx' c ∈ (sendTransaction uc env tx).trace ↔
      tx' = tx ∧ uc.ethClient.NetworkID = Except.ok c := by
  unfold sendTransaction
  simp only [Run.mem_trace_bind, Run.call, Run.emit, List.mem_singleton, List.not_mem_nil,
    false_or, reduceCtorEq, pure, Run.pure, Event.signTx.injEq]
  constructor
  · rintro ⟨c', hc, h⟩
    rcases h with ⟨h1, h2⟩ | ⟨sig, -, u, -, h⟩
    · exact ⟨h1, h2 ▸ hc⟩
    · simp at h
  · rintro ⟨h1, h2⟩
    exact ⟨c, h2, Or.inl ⟨h1, rfl⟩⟩

theorem sendTransaction_no_estimate (uc : Client) (env : Env) (tx : Transaction) (ev : Event)
    (hin : ev ∈ (sendTransaction uc env tx).trace) : ev.isEstimateGas = false := by
  unfold sendTransaction at hin
  simp only [Run.mem_trace_bind, Run.call, Run.emit, List.mem_singleton, List.not_mem_nil,
    false_or, pure, Run.pure] at hin
  rcases hin with h | ⟨_, _, h | ⟨_, _, h | ⟨_, _, h | ⟨_, _, h | ⟨_, _, h | ⟨_, _, h⟩⟩⟩⟩⟩⟩ <;>
    first
    | (subst h; rfl)
    | exact absurd h (by simp)

/-! ## The mutating operations -/

theorem MintWETH_mined (uc : Client) (env : Env) (amount : ℤ) (token : Address)
    (stx : SignedTransaction) (receipt : Receipt)
    (hin : Event.waitMined stx ∈ (MintWETH uc env amount token).trace)
    (hmined : uc.ethClient.WaitMined stx = Except.ok receipt) :
    (MintWETH uc env amount token).result = Except.ok () := by
  unfold MintWETH at hin ⊢
  simp only [Run.mem_trace_bind, Run.call, Run.lift, List.mem_singleton, List.not_mem_nil,
    false_or, reduceCtorEq] at hin
  obtain ⟨data, hd, p, hp, n, hn, g, hg, hin⟩ := hin
  simp only [Run.result_bind_ok, Run.call, Run.lift]
  exact ⟨data, hd, p, hp, n, hn, g, hg, sendTransaction_mined uc env _ stx receipt hin hmined⟩

theorem ApproveERC20Token_mined (uc : Client) (env : Env) (token spender : Address)
    (amount : ℤ) (stx : SignedTransaction) (receipt : Receipt)
    (hin : Event.waitMined stx ∈ (ApproveERC20Token uc env token spender amount).trace)
    (hmined : uc.ethClient.WaitMined stx = Except.ok receipt) :
    (ApproveERC20Token uc env token spender amount).result = Except.ok () := by
  unfold ApproveERC20Token at hin ⊢
  simp only [Run.mem_trace_bind, Run.call, Run.lift, List.mem_singleton, List.not_mem_nil,
    false_or, reduceCtorEq] at hin
  obtain ⟨data, hd, n, hn, p, hp, g, hg, hin⟩ := hin
  simp only [Run.result_bind_ok, Run.call, Run.lift]
  exact ⟨data, hd, n, hn, p, hp, g, hg, sendTransaction_mined uc env _ stx receipt hin hmined⟩

theorem SwapTokens_mined (uc : Client) (env : Env) (amountIn amountOutMin : ℤ)
    (path : List Address) (stx : SignedTransaction) (receipt : Receipt)
    (hin : Event.waitMined stx ∈ (SwapTokens uc env amountIn amountOutMin path).trace)
    (hmined : uc.ethClient.WaitMined stx = Except.ok receipt) :
    (SwapTokens uc env amountIn amountOutMin path).result = Except.ok () := by
  unfold SwapTokens at hin ⊢
  simp only [Run.mem_trace_bind, Run.call, Run.lift, Run.emit, List.mem_singleton,
    List.not_mem_nil, false_or, reduceCtorEq] at hin
  obtain ⟨u, hu, data, hd, n, hn, p, hp, hin⟩ := hin
  simp only [Run.result_bind_ok, Run.call, Run.lift, Run.emit]
  exact ⟨u, hu, data, hd, n, hn, p, hp, sendTransaction_mined uc env _ stx receipt hin hmined⟩

/-- C3, as the code behaves: a mutating operation (`MintWETH`, `ApproveERC20Token`,
`SwapTokens`) whose transaction reached the wait for its receipt and was reported mined returns
`nil`, whatever the execution status of the receipt. -/
theorem mined_operation_returns_nil (uc : Client) (env : Env) (stx : SignedTransaction)
    (receipt : Receipt) (hmined : uc.ethClient.WaitMined stx = Except.ok receipt) :
    (∀ amount token, Event.waitMined stx ∈ (MintWETH uc env amount token).trace →
        (MintWETH uc env amount token).result = Except.ok ()) ∧
    (∀ token spender amount,
        Event.waitMined stx ∈ (ApproveERC20Token uc env token spender amount).trace →
        (ApproveERC20Token uc env token spender amount).result = Except.ok ()) ∧
    (∀ amountIn amountOutMin path,
        Event.waitMined stx ∈ (SwapTokens uc env amountIn amountOutMin path).trace →
        (SwapTokens uc env amountIn amountOutMin path).result = Except.ok ()) :=
  ⟨fun amount token hin => MintWETH_mined uc env amount token stx receipt hin hmined,
   fun token spender amount hin =>
     ApproveERC20Token_mined uc env token spender amount stx receipt hin hmined,
   fun amountIn amountOutMin path hin =>
     SwapTokens_mined uc env amountIn amountOutMin path stx receipt hin hmined⟩

/-- C3 at a node that mines every transaction with execution status 0 (failure): the status
holds for the signed transaction of the run, the three operations reach the wait for the
receipt, and each returns `nil`. -/
theorem mined_operation_returns_nil_witness :
    (scriptedNode (Except.ok 21000) 0 []).WaitMined scriptedMintTx = Except.ok ⟨0⟩ ∧
    Event.waitMined scriptedMintTx ∈
      (MintWETH (scriptedClient (scriptedNode (Except.ok 21000) 0 [])) (scriptedEnv [])
        (10 ^ 18) tokenInAddress).trace ∧
    (MintWETH (scriptedClient (scriptedNode (Except.ok 21000) 0 [])) (scriptedEnv [])
        (10 ^ 18) tokenInAddress).result = Except.ok () := by
  refine ⟨rfl, ?_, ?_⟩
  · decide
  · exact (mined_operation_returns_nil (scriptedClient (scriptedNode (Except.ok 21000) 0 []))
      (scriptedEnv []) scriptedMintTx ⟨0⟩ rfl).1 (10 ^ 18) tokenInAddress (by decide)

/-- C3 fails as stated: against a node that mines every transaction with execution status 0
(failure), `MintWETH`, `ApproveERC20Token` and `SwapTokens` all return `nil`, not an error. -/
theorem reverted_receipt_returns_nil :
    (∀ stx, (scriptedNode (Except.ok 21000) 0 []).WaitMined stx = Except.ok ⟨0⟩) ∧
    (MintWETH (scriptedClient (scriptedNode (Except.ok 21000) 0 [])) (scriptedEnv [])
        (10 ^ 18) tokenInAddress).result = Except.ok () ∧
    (ApproveERC20Token (scriptedClient (scriptedNode (Except.ok 21000) 0 [])) (scriptedEnv [])
        tokenInAddress uniswapV2RouterAddress (10 ^ 18)).result = Except.ok () ∧
    (SwapTokens (scriptedClient (scriptedNode (Except.ok 21000) 0 [])) (scriptedEnv [])
        (10 ^ 18) 1 [tokenInAddress, tokenOutAddress]).result = Except.ok () :=
  ⟨fun _ => rfl, rfl, rfl, rfl⟩

/-- C6: when the node fails every estimate-gas request, `MintWETH` and `ApproveERC20Token`
return an error and their traces hold no chain-id query, no signing, no send-raw-transaction
request and no wait for a receipt. -/
theorem estimate_failure_aborts_before_signing (uc : Client) (env : Env)
    (hfail : ∀ msg, ∃ e, uc.ethClient.EstimateGas msg = Except.error e) :
    (∀ amount token,
        (∃ e, (MintWETH uc env amount token).result = Except.error e) ∧
        ∀ ev ∈ (MintWETH uc env amount token).trace, ev.isSubmission = false) ∧
    (∀ token spender amount,
        (∃ e, (ApproveERC20Token uc env token spender amount).result = Except.error e) ∧
        ∀ ev ∈ (ApproveERC20Token uc env token spender amount).trace,
          ev.isSubmission = false) := by
  constructor
  · intro amount token
    unfold MintWETH
    rcases h1 : env.Pack "deposit" [] with e | data
    · exact ⟨⟨e, by simp [Run.result_bind_error, Run.lift, h1]⟩,
        fun ev hev => by simp [Run.mem_trace_bind, Run.lift, h1] at hev⟩
    rcases h2 : uc.ethClient.SuggestGasPrice with e | p
    · refine ⟨⟨e, by simp [Run.result_bind_error, Run.lift, Run.call, h1, h2]⟩,
        fun ev hev => ?_⟩
      simp [Run.mem_trace_bind, Run.lift, Run.call, h1, h2] at hev
      subst hev; rfl
    rcases h3 : uc.ethClient.PendingNonceAt uc.signerAddress with e | n
    · refine ⟨⟨e, by simp [Run.result_bind_error, Run.lift, Run.call, h1, h2, h3]⟩,
        fun ev hev => ?_⟩
      simp [Run.mem_trace_bind, Run.lift, Run.call, h1, h2, h3] at hev
      rcases hev with hev | hev <;> (subst hev; rfl)
    obtain ⟨e, h4⟩ := hfail ⟨token, data⟩
    refine ⟨⟨e, by simp [Run.result_bind_error, Run.lift, Run.call, h1, h2, h3, h4]⟩,
      fun ev hev => ?_⟩
    simp [Run.mem_trace_bind, Run.lift, Run.call, h1, h2, h3, h4] at hev
    rcases hev with hev | hev | hev <;> (subst hev; rfl)
  · intro token spender amount
    unfold ApproveERC20Token
    rcases h1 : env.Pack "approve" [AbiValue.address spender, AbiValue.uint256 amount]
      with e | data
    · exact ⟨⟨e, by simp [Run.result_bind_error, Run.lift, h1]⟩,
        fun ev hev => by simp [Run.mem_trace_bind, Run.lift, h1] at hev⟩
    rcases h2 : uc.ethClient.PendingNonceAt uc.signerAddress with e | n
    · refine ⟨⟨e, by simp [Run.result_bind_error, Run.lift, Run.call, h1, h2]⟩,
        fun ev hev => ?_⟩
      simp [Run.mem_trace_bind, Run.lift, Run.call, h1, h2] at hev
      subst hev; rfl
    rcases h3 : uc.ethClient.SuggestGasPrice with e | p
    · refine ⟨⟨e, by simp [Run.result_bind_error, Run.lift, Run.call, h1, h2, h3]⟩,
        fun ev hev => ?_⟩
      simp [Run.mem_trace_bind, Run.lift, Run.call, h1, h2, h3] at hev
      rcases hev with hev | hev <;> (subst hev; rfl)
    obtain ⟨e, h4⟩ := hfail ⟨token, data⟩
    refine ⟨⟨e, by simp [Run.result_bind_error, Run.lift, Run.call, h1, h2, h3, h4]⟩,
      fun ev hev => ?_⟩
    simp [Run.mem_trace_bind, Run.lift, Run.call, h1, h2, h3, h4] at hev
    rcases hev with hev | hev | hev <;> (subst hev; rfl)

/-- C6 at a scripted node whose estimate-gas request fails with `execution reverted`: both
operations return that error, and the trace of `MintWETH` is the three queries before
signing. -/
theorem estimate_failure_aborts_before_signing_witness :
    (∀ msg, ∃ e, (scriptedClient (scriptedNode (Except.error executionReverted) 1
        [])).ethClient.EstimateGas msg = Except.error e) ∧
    ((∀ amount token,
        (∃ e, (MintWETH (scriptedClient (scriptedNode (Except.error executionReverted) 1 []))
          (scriptedEnv []) amount token).result = Except.error e) ∧
        ∀ ev ∈ (MintWETH (scriptedClient (scriptedNode (Except.error executionReverted) 1 []))
          (scriptedEnv []) amount token).trace, ev.isSubmission = false) ∧
     (∀ token spender amount,
        (∃ e, (ApproveERC20Token
          (scriptedClient (scriptedNode (Except.error executionReverted) 1 []))
          (scriptedEnv []) token spender amount).result = Except.error e) ∧
        ∀ ev ∈ (ApproveERC20Token
          (scriptedClient (scriptedNode (Except.error executionReverted) 1 []))
          (scriptedEnv []) token spender amount).trace, ev.isSubmission = false)) ∧
    (MintWETH (scriptedClient (scriptedNode (Except.error executionReverted) 1 []))
        (scriptedEnv []) (10 ^ 18) tokenInAddress).result = Except.error executionReverted ∧
    (MintWETH (scriptedClient (scriptedNode (Except.error executionReverted) 1 []))
        (scriptedEnv []) (10 ^ 18) tokenInAddress).trace =
      [Event.suggestGasPrice,
       Event.pendingNonceAt 0x1111111111111111111111111111111111111111,
       Event.estimateGas ⟨tokenInAddress, [0xd0, 0xe3, 0x0d, 0xb0]⟩] :=
  ⟨fun _ => ⟨executionReverted, rfl⟩,
   estimate_failure_aborts_before_signing
     (scriptedClient (scriptedNode (Except.error executionReverted) 1 [])) (scriptedEnv [])
     (fun _ => ⟨executionReverted, rfl⟩),
   rfl, rfl⟩

/-- C7: against a node returning nonce `n`, gas price `p` and gas estimate `g` with
`g + GasLimitBuffer < 2 ^ 64`, every transaction `MintWETH amount token` hands to signing has
nonce `n`, gas price `p`, recipient `token`, value `amount` and gas limit
`g + GasLimitBuffer`; and that transaction is handed to signing as soon as the call data
packs and the node answers the chain-id query. -/
theorem MintWETH_builds_transaction (uc : Client) (env : Env) (amount : ℤ) (token : Address)
    (n : ℕ) (p : ℤ) (g : ℕ)
    (hn : uc.ethClient.PendingNonceAt uc.signerAddress = Except.ok n)
    (hp : uc.ethClient.SuggestGasPrice = Except.ok p)
    (hg : ∀ msg, uc.ethClient.EstimateGas msg = Except.ok g)
    (hlt : g + uc.cfg.GasLimitBuffer < 2 ^ 64) :
    (∀ tx c, Event.signTx tx c ∈ (MintWETH uc env amount token).trace →
        tx.nonce = n ∧ tx.gasPrice = p ∧ tx.To = token ∧ tx.value = amount ∧
          tx.gas = g + uc.cfg.GasLimitBuffer) ∧
    (∀ data c, env.Pack "deposit" [] = Except.ok data → uc.ethClient.NetworkID = Except.ok c →
        Event.signTx ⟨n, token, amount, g + uc.cfg.GasLimitBuffer, p, data⟩ c ∈
          (MintWETH uc env amount token).trace) := by
  have hmod : (g + uc.cfg.GasLimitBuffer) % 2 ^ 64 = g + uc.cfg.GasLimitBuffer :=
    Nat.mod_eq_of_lt hlt
  constructor
  · intro tx c hin
    unfold MintWETH at hin
    simp only [Run.mem_trace_bind, Run.call, Run.lift, List.mem_singleton, List.not_mem_nil,
      false_or, reduceCtorEq, hn, hp, hg, Except.ok.injEq, exists_eq_left', hmod,
      sendTransaction_signTx_mem] at hin
    obtain ⟨data, -, rfl, -⟩ := hin
    exact ⟨rfl, rfl, rfl, rfl, rfl⟩
  · intro data c hd hc
    unfold MintWETH
    simp only [Run.mem_trace_bind, Run.call, Run.lift, List.mem_singleton, List.not_mem_nil,
      false_or, reduceCtorEq, hn, hp, hg, Except.ok.injEq, exists_eq_left', hmod,
      sendTransaction_signTx_mem, hd, hc, and_self]

/-- C7 at the scripted node of the specification: nonce 5 and estimate 21000 give a transaction
with nonce 5 and gas limit `21000 + GasLimitBuffer`, and that transaction is handed to
signing. -/
theorem MintWETH_builds_transaction_witness :
    21000 + (scriptedClient (scriptedNode (Except.ok 21000) 1 [])).cfg.GasLimitBuffer < 2 ^ 64 ∧
    (∀ tx c, Event.signTx tx c ∈ (MintWETH (scriptedClient (scriptedNode (Except.ok 21000) 1 []))
        (scriptedEnv []) (10 ^ 18) tokenInAddress).trace →
        tx.nonce = 5 ∧ tx.gasPrice = 30000000000 ∧ tx.To = tokenInAddress ∧ tx.value = 10 ^ 18 ∧
          tx.gas = 21000 + (scriptedClient (scriptedNode (Except.ok 21000) 1
            [])).cfg.GasLimitBuffer) ∧
    Event.signTx ⟨5, tokenInAddress, 10 ^ 18, 21000 + 50000, 30000000000,
        [0xd0, 0xe3, 0x0d, 0xb0]⟩ 1 ∈
      (MintWETH (scriptedClient (scriptedNode (Except.ok 21000) 1 [])) (scriptedEnv [])
        (10 ^ 18) tokenInAddress).trace :=
  have h := MintWETH_builds_transaction (scriptedClient (scriptedNode (Except.ok 21000) 1 []))
    (scriptedEnv []) (10 ^ 18) tokenInAddress 5 30000000000 21000 rfl rfl (fun _ => rfl)
    (by decide)
  ⟨by decide, h.1, h.2 [0xd0, 0xe3, 0x0d, 0xb0] 1 rfl rfl⟩

/-- C8: for every `SwapTokens` call and every node, the trace holds no estimate-gas request;
every transaction handed to signing has gas limit `SwapGasLimit` exactly, the router as
recipient and value 0; and that transaction is handed to signing as soon as the call data
packs and the node answers the nonce, gas-price and chain-id queries. -/
theorem SwapTokens_fixed_gas_limit (uc : Client) (env : Env) (amountIn amountOutMin : ℤ)
    (path : List Address) :
    (∀ ev ∈ (SwapTokens uc env amountIn amountOutMin path).trace, ev.isEstimateGas = false) ∧
    (∀ tx c, Event.signTx tx c ∈ (SwapTokens uc env amountIn amountOutMin path).trace →
        tx.gas = uc.cfg.SwapGasLimit ∧ tx.To = uc.routerAddress ∧ tx.value = 0) ∧
    (∀ data n p c,
        env.Pack "swapExactTokensForTokens"
          [AbiValue.uint256 amountIn, AbiValue.uint256 amountOutMin, AbiValue.addressSlice path,
            AbiValue.address uc.signerAddress,
            AbiValue.uint256 ((env.nowUnixNano + uc.cfg.DeadlineDuration) / 1000000000)] =
          Except.ok data →
        uc.ethClient.PendingNonceAt uc.signerAddress = Except.ok n →
        uc.ethClient.SuggestGasPrice = Except.ok p →
        uc.ethClient.NetworkID = Except.ok c →
        Event.signTx ⟨n, uc.routerAddress, 0, uc.cfg.SwapGasLimit, p, data⟩ c ∈
          (SwapTokens uc env amountIn amountOutMin path).trace) := by
  refine ⟨?_, ?_, ?_⟩
  · intro ev hin
    unfold SwapTokens at hin
    simp only [Run.mem_trace_bind, Run.call, Run.lift, Run.emit, List.mem_singleton,
      List.not_mem_nil, false_or] at hin
    rcases hin with h | ⟨_, _, _, _, h | ⟨_, _, h | ⟨_, _, h⟩⟩⟩
    · subst h; rfl
    · subst h; rfl
    · subst h; rfl
    · exact sendTransaction_no_estimate uc env _ ev h
  · intro tx c hin
    unfold SwapTokens at hin
    simp only [Run.mem_trace_bind, Run.call, Run.lift, Run.emit, List.mem_singleton,
      List.not_mem_nil, false_or, reduceCtorEq, sendTransaction_signTx_mem] at hin
    obtain ⟨_, _, data, _, n, _, p, _, rfl, _⟩ := hin
    exact ⟨rfl, rfl, rfl⟩
  · intro data n p c hd hn hp hc
    unfold SwapTokens
    simp only [Run.mem_trace_bind, Run.call, Run.lift, Run.emit, List.mem_singleton,
      List.not_mem_nil, false_or, reduceCtorEq, sendTransaction_signTx_mem, hd, hn, hp, hc,
      Except.ok.injEq, exists_eq_left', and_self, exists_const]

/-- C8 at the scripted node, which would estimate 21000 gas: the swap of `main.go` hands to
signing a transaction with gas limit 1000000, and its trace holds no estimate-gas request. -/
theorem SwapTokens_fixed_gas_limit_witness :
    (scriptedNode (Except.ok 21000) 1 []).EstimateGas ⟨uniswapV2RouterAddress, []⟩ =
      Except.ok 21000 ∧
    (∀ ev ∈ (SwapTokens (scriptedClient (scriptedNode (Except.ok 21000) 1 [])) (scriptedEnv [])
        (10 ^ 18) 1 [tokenInAddress, tokenOutAddress]).trace, ev.isEstimateGas = false) ∧
    Event.signTx ⟨5, uniswapV2RouterAddress, 0, 1000000, 30000000000,
        [0xd0, 0xe3, 0x0d, 0xb0]⟩ 1 ∈
      (SwapTokens (scriptedClient (scriptedNode (Except.ok 21000) 1 [])) (scriptedEnv [])
        (10 ^ 18) 1 [tokenInAddress, tokenOutAddress]).trace :=
  have h := SwapTokens_fixed_gas_limit (scriptedClient (scriptedNode (Except.ok 21000) 1 []))
    (scriptedEnv []) (10 ^ 18) 1 [tokenInAddress, tokenOutAddress]
  ⟨rfl, h.1, h.2.2 [0xd0, 0xe3, 0x0d, 0xb0] 5 30000000000 1 rfl rfl rfl rfl⟩

/-! ## The read operations -/

/-- C4, as the code behaves: when the call data packs and the node answers with bytes that
decode to the list `amounts`, `GetExpectedAmountOut` returns the error
`unexpected result length` if `amounts` has fewer than 2 elements and the last element of
`amounts` otherwise, whatever the length of `path`. -/
theorem GetExpectedAmountOut_result (uc : Client) (env : Env) (amountIn : ℤ)
    (path : List Address) (callData response : Bytes) (amounts : List ℤ)
    (hpack : env.Pack "getAmountsOut" [AbiValue.uint256 amountIn, AbiValue.addressSlice path] =
      Except.ok callData)
    (hcall : uc.ethClient.CallContract ⟨uc.routerAddress, callData⟩ = Except.ok response)
    (hdecode : env.UnpackUint256Slice "getAmountsOut" response = Except.ok amounts) :
    (amounts.length < 2 →
        (GetExpectedAmountOut uc env amountIn path).result =
          Except.error ⟨"unexpected result length"⟩) ∧
    (2 ≤ amounts.length →
        ∃ last, amounts.getLast? = some last ∧
          (GetExpectedAmountOut uc env amountIn path).result = Except.ok last) := by
  constructor
  · intro hlen
    unfold GetExpectedAmountOut
    simp [Run.result_bind_error, Run.lift, Run.call, hpack, hcall, hdecode, hlen]
  · intro hlen
    have hne : amounts ≠ [] := by
      intro h
      simp [h] at hlen
    refine ⟨amounts.getLast hne, List.getLast?_eq_getLast _ hne, ?_⟩
    unfold GetExpectedAmountOut
    simp only [Run.result_bind_ok, Run.lift, Run.call, hpack, hcall, hdecode, Except.ok.injEq,
      exists_eq_left']
    rw [dif_neg (by omega)]
    simp only [pure, Run.pure, Except.ok.injEq]
    rw [List.getLast_eq_getElem]
    rfl

/-- C4 on the path `[WETH, TOKEN]` of `main.go` with `amountIn = 10 ^ 18`: a response that
decodes to one amount is an error, a response that decodes to two amounts yields the
second. -/
theorem GetExpectedAmountOut_result_witness :
    (GetExpectedAmountOut (scriptedClient (scriptedNode (Except.ok 21000) 1 []))
        (scriptedEnv [10 ^ 18]) (10 ^ 18) [tokenInAddress, tokenOutAddress]).result =
      Except.error ⟨"unexpected result length"⟩ ∧
    ∃ last, [10 ^ 18, (2500000000 : ℤ)].getLast? = some last ∧
      (GetExpectedAmountOut (scriptedClient (scriptedNode (Except.ok 21000) 1 []))
        (scriptedEnv [10 ^ 18, 2500000000]) (10 ^ 18)
        [tokenInAddress, tokenOutAddress]).result = Except.ok last :=
  ⟨(GetExpectedAmountOut_result (scriptedClient (scriptedNode (Except.ok 21000) 1 []))
      (scriptedEnv [10 ^ 18]) (10 ^ 18) [tokenInAddress, tokenOutAddress]
      [0xd0, 0xe3, 0x0d, 0xb0] [] [10 ^ 18] rfl rfl rfl).1 (by decide),
   (GetExpectedAmountOut_result (scriptedClient (scriptedNode (Except.ok 21000) 1 []))
      (scriptedEnv [10 ^ 18, 2500000000]) (10 ^ 18) [tokenInAddress, tokenOutAddress]
      [0xd0, 0xe3, 0x0d, 0xb0] [] [10 ^ 18, 2500000000] rfl rfl rfl).2 (by decide)⟩

/-- C4 fails as stated: for a path of 3 addresses and a response that decodes to 2 amounts
(fewer than 3), `GetExpectedAmountOut` returns the second amount, not an error. -/
theorem GetExpectedAmountOut_short_response_accepted :
    [tokenInAddress, uniswapV2RouterAddress, tokenOutAddress].length = 3 ∧
    (scriptedEnv [10 ^ 18, 2500000000]).UnpackUint256Slice "getAmountsOut" [] =
      Except.ok [10 ^ 18, 2500000000] ∧
    (GetExpectedAmountOut (scriptedClient (scriptedNode (Except.ok 21000) 1 []))
        (scriptedEnv [10 ^ 18, 2500000000]) (10 ^ 18)
        [tokenInAddress, uniswapV2RouterAddress, tokenOutAddress]).result =
      Except.ok 2500000000 :=
  ⟨rfl, rfl, rfl⟩

/-- C5 fails on the code: when the node answers the `balanceOf` call with the empty byte
string, or with the single byte `0x07`, `GetTokenBalance` returns the decoded values 0 and 7
with a `nil` error. -/
theorem GetTokenBalance_short_response_decoded :
    (GetTokenBalance (scriptedClient (scriptedNode (Except.ok 21000) 1 [])) (scriptedEnv [])
        tokenInAddress).result = Except.ok 0 ∧
    (GetTokenBalance (scriptedClient (scriptedNode (Except.ok 21000) 1 [0x07])) (scriptedEnv [])
        tokenInAddress).result = Except.ok 7 :=
  ⟨rfl, rfl⟩

end Uniswap
